import Mathlib

/-!
# Verification of the menu-driven calculator (`src/comp/calc.c`) and the
# number-guessing game (`src/comp/gameguess.c`)

The two C programs are shallowly embedded here.

Numeric model: the C `double` operands and results are modelled as exact
rationals (`ℚ`), matching the exact-arithmetic semantics of the
specification;
the `NAN` sentinel used by the code as an "undefined result" signal is the
`DVal.nan` constructor.  `pow` from `<math.h>` is a libc primitive whose
value the claims never inspect, so the machine is parameterised by an
arbitrary function `powFn : ℚ → ℚ → DVal` standing for it.

I/O model: standard input is a list of whitespace-delimited tokens
(`Inp`).  A token is either an integer literal (readable by both
`scanf("%d")` and `scanf("%lf")`), a non-integer numeric literal
(readable only by `scanf("%lf")`), or a malformed token (readable by
neither).  Every failed `scanf` in `calc.c` is immediately followed by a
`while ((c = getchar()) != \n && c != EOF);` line discard, so a failed
read consumes the offending token; at end of input (`[]`, modelling EOF)
`scanf` fails and the discard loop consumes nothing, exactly as the C
behaves.  Standard output and standard error are event lists (`Out`,
`Err`), one event per `printf`/`fprintf` site in the source.
-/

namespace Calc

/-- An input token as seen by the `scanf` calls of `calc.c`: an integer
literal, a numeric-but-not-integer literal (e.g. ".5"), or a token that
parses as neither (e.g. "abc"). -/
inductive Inp where
  | intTok (n : ℤ)
  | numTok (q : ℚ)
  | badTok
deriving DecidableEq

/-- A `double` value as used by `calc.c`: either a finite number (modelled
exactly as a rational) or the `NAN` sentinel returned on undefined
operations. -/
inductive DVal where
  | num (q : ℚ)
  | nan
deriving DecidableEq

/-- One stdout event per `printf` site of `calc.c`: the menu banner
(`print_menu`), the choice prompt (`prompt_for_choice`), the two operand
prompts of `get_numbers`, the result line
`printf("\nResult of operation is: %.2f\n", result)` carrying its
formatted text, and the farewell message of the Exit branch. -/
inductive Out where
  | menu
  | promptChoice
  | promptFirst
  | promptSecond
  | resultLine (s : String)
  | goodbye
deriving DecidableEq

/-- One stderr event per `fprintf(stderr, ...)` site of `calc.c`.
`invalidMenuRange lo hi` carries the two `%d` arguments (`ADD` and `EXIT`)
of the out-of-range diagnostic. -/
inductive Err where
  | invalidMenuInput
  | invalidMenuRange (lo hi : ℤ)
  | divByZero
  | modByZero
  | unhandledChoice
  | invalidFirstOperand
  | invalidSecondOperand
deriving DecidableEq

/-- Whether a token is accepted by `scanf("%d")`, and the integer read. -/
def intOf : Inp → Option ℤ
  | .intTok n => some n
  | .numTok _ => none
  | .badTok => none

/-- Whether a token is accepted by `scanf("%lf")`, and the double read:
integer literals also parse as doubles. -/
def numOf : Inp → Option ℚ
  | .intTok n => some (n : ℚ)
  | .numTok q => some q
  | .badTok => none

/-- Reading with `scanf("%d", ...)` followed, on failure, by the
line-discard loop: a
matching token is consumed and returned; a non-matching token is consumed
by the discard loop with no value; at end of input nothing is consumed
(the discard loop exits immediately on EOF). -/
def scanfInt : List Inp → Option ℤ × List Inp
  | [] => (none, [])
  | t :: r =>
    match intOf t with
    | some n => (some n, r)
    | none => (none, r)

/-- Reading with `scanf("%lf", ...)`, with the same failure/discard
convention as
`scanfInt`. -/
def scanfNum : List Inp → Option ℚ × List Inp
  | [] => (none, [])
  | t :: r =>
    match numOf t with
    | some q => (some q, r)
    | none => (none, r)

/-- Truncation toward zero of a rational, as the C `fmod` truncates the
quotient. -/
def qtrunc (x : ℚ) : ℤ :=
  if 0 ≤ x then ⌊x⌋ else -⌊-x⌋

/-- The C `fmod(a, b)` on exact rationals: `a - b * trunc(a / b)`, the
remainder carrying the sign of the dividend. -/
def qfmod (a b : ℚ) : ℚ :=
  a - b * (qtrunc (a / b) : ℚ)

/-- Round a rational to the nearest integer, ties to even, as IEEE-754
rounding does; used to model the `%.2f` conversion of `printf`.  (For actual
binary doubles a decimal tie can never occur, so any tie rule agrees with
the C output.) -/
def rhe (x : ℚ) : ℤ :=
  if x - (⌊x⌋ : ℚ) < 1 / 2 then ⌊x⌋
  else if 1 / 2 < x - (⌊x⌋ : ℚ) then ⌊x⌋ + 1
  else if ⌊x⌋ % 2 = 0 then ⌊x⌋ else ⌊x⌋ + 1

/-- The text `printf("%.2f", q)` produces for an exact value `q`: sign,
integer part, and exactly two fractional digits of the correctly rounded
hundredths. -/
def format2 (q : ℚ) : String :=
  let m := rhe (100 * |q|)
  let sign := if q < 0 then "-" else ""
  let fp := (m % 100).toNat
  sign ++ toString (m / 100) ++ "." ++ (if fp < 10 then "0" else "") ++ toString fp

/-- Function `division` from `calc.c` lines 120-128: returns `a / b`, or on a zero
divisor prints `Error: Cannot divide by zero.` to stderr and returns
`NAN`.  The second component is the stderr output of the call. -/
def division (a b : ℚ) : DVal × List Err :=
  if b = 0 then (.nan, [.divByZero]) else (.num (a / b), [])

/-- Function `modulus` from `calc.c` lines 136-144: returns `fmod(a, b)`, or on a
zero divisor prints `Error: Division by zero in modulus operation.` to
stderr and returns `NAN`. -/
def modulus (a b : ℚ) : DVal × List Err :=
  if b = 0 then (.nan, [.modByZero]) else (.num (qfmod a b), [])

/-- Function `get_numbers` from `calc.c` lines 154-175: prompts for and reads the
first operand, and only on success prompts for and reads the second; any
failure emits a diagnostic naming the failing operand, discards the rest
of the line and aborts.  Returns the operands on success, together with
the remaining input, the stdout events and the stderr events of the
call. -/
def get_numbers (inp : List Inp) : Option (ℚ × ℚ) × List Inp × List Out × List Err :=
  match scanfNum inp with
  | (none, r) => (none, r, [.promptFirst], [.invalidFirstOperand])
  | (some a, r) =>
    match scanfNum r with
    | (none, r2) => (none, r2, [.promptFirst, .promptSecond], [.invalidSecondOperand])
    | (some b, r2) => (some (a, b), r2, [.promptFirst, .promptSecond], [])

/-- The operation-dispatch `switch (Choice)` of `main` (lines 76-100),
with the numeric values of the `MenuChoice` enumerators: `ADD = 1`,
`SUBTRACT = 2`, `MULTIPLY = 3`, `DIVIDE = 4`, `MODULUS_OP = 5`,
`POWER = 6`.  The default branch emits the `Unhandled menu choice`
diagnostic and sets the result to `NAN`.  `powFn` stands for the libc
`pow`. -/
def dispatchOp (powFn : ℚ → ℚ → DVal) (c : ℤ) (a b : ℚ) : DVal × List Err :=
  if c = 1 then (.num (a + b), [])
  else if c = 2 then (.num (a - b), [])
  else if c = 3 then (.num (a * b), [])
  else if c = 4 then division a b
  else if c = 5 then modulus a b
  else if c = 6 then (powFn a b, [])
  else (.nan, [.unhandledChoice])

/-- The whole-program state of the calculator: remaining standard input,
accumulated standard output, accumulated standard error, and whether the
`while (1)` loop has been exited via `break`. -/
structure CalcState where
  input : List Inp
  output : List Out
  errors : List Err
  done : Bool
deriving DecidableEq

/-- One iteration of the `while (1)` loop of `main` (lines 39-109): read
the menu choice (on parse failure: diagnostic, line discard, menu and
prompt reprinted); on `EXIT` print the farewell and leave the loop; on an
out-of-range choice: diagnostic naming the range `ADD`..`EXIT`, line
discard, re-prompt without the menu; otherwise acquire the operands via
`get_numbers` (on failure just re-prompt), dispatch the operation, print
the result line only when the result is not `NAN`, and re-prompt.  A
state already out of the loop is left unchanged. -/
def step (powFn : ℚ → ℚ → DVal) (s : CalcState) : CalcState :=
  if s.done then s else
  match scanfInt s.input with
  | (none, rest) =>
    ⟨rest, s.output ++ [.menu, .promptChoice], s.errors ++ [.invalidMenuInput], false⟩
  | (some c, rest) =>
    if c = 7 then
      ⟨rest, s.output ++ [.goodbye], s.errors, true⟩
    else if c < 1 ∨ 7 < c then
      ⟨rest, s.output ++ [.promptChoice], s.errors ++ [.invalidMenuRange 1 7], false⟩
    else
      match get_numbers rest with
      | (none, rest2, outs, errs) =>
        ⟨rest2, s.output ++ outs ++ [.promptChoice], s.errors ++ errs, false⟩
      | (some (a, b), rest2, outs, errs) =>
        match dispatchOp powFn c a b with
        | (.num q, operrs) =>
          ⟨rest2, s.output ++ outs ++ [.resultLine (format2 q), .promptChoice],
            s.errors ++ errs ++ operrs, false⟩
        | (.nan, operrs) =>
          ⟨rest2, s.output ++ outs ++ [.promptChoice], s.errors ++ errs ++ operrs, false⟩

/-- Run `n` iterations of the main loop. -/
def run (powFn : ℚ → ℚ → DVal) : Nat → CalcState → CalcState
  | 0, s => s
  | n + 1, s => step powFn (run powFn n s)

/-- The state of `main` when the loop is first entered (lines 35-36):
`print_menu()` and `prompt_for_choice()` have run, nothing has been read
and no diagnostic has been emitted. -/
def initState (inp : List Inp) : CalcState :=
  ⟨inp, [Out.menu, Out.promptChoice], [], false⟩

/-- The value `main` returns after the loop (`return 0;`, line 111). -/
def calcExitCode : ℤ := 0

/-- A concrete stand-in for libc `pow`, used to instantiate universally
quantified theorems at concrete inputs. -/
def pw0 : ℚ → ℚ → DVal := fun _ _ => DVal.nan

/-- Claim C1: for every finite operand `a`, selecting Divide (4) or
Remainder (5) with second operand `0` appends exactly the zero-divisor
diagnostic to stderr, prints no result line (the operation returns the
`NAN` sentinel and the `isnan` check suppresses the print), and the loop
continues (`done` stays `false`), from any loop state. -/
theorem C1_zero_divisor (powFn : ℚ → ℚ → DVal) (a : ℚ) (rest : List Inp)
    (out : List Out) (errs : List Err) :
    step powFn ⟨Inp.intTok 4 :: Inp.numTok a :: Inp.numTok 0 :: rest, out, errs, false⟩ =
      ⟨rest, out ++ [Out.promptFirst, Out.promptSecond, Out.promptChoice],
        errs ++ [Err.divByZero], false⟩
    ∧ step powFn ⟨Inp.intTok 5 :: Inp.numTok a :: Inp.numTok 0 :: rest, out, errs, false⟩ =
      ⟨rest, out ++ [Out.promptFirst, Out.promptSecond, Out.promptChoice],
        errs ++ [Err.modByZero], false⟩ := by
  constructor <;>
    simp [step, scanfInt, intOf, get_numbers, scanfNum, numOf, dispatchOp, division, modulus]

/-- Claim C2: for Add (1), Subtract (2) and Multiply (3) and all finite
operands `a`, `b`, the iteration prints the result line carrying exactly
the mathematical sum, difference or product formatted to two decimals,
appends no stderr diagnostic, and the loop continues. -/
theorem C2_add_sub_mul_exact (powFn : ℚ → ℚ → DVal) (a b : ℚ) (rest : List Inp)
    (out : List Out) (errs : List Err) :
    step powFn ⟨Inp.intTok 1 :: Inp.numTok a :: Inp.numTok b :: rest, out, errs, false⟩ =
      ⟨rest, out ++ [Out.promptFirst, Out.promptSecond,
        Out.resultLine (format2 (a + b)), Out.promptChoice], errs, false⟩
    ∧ step powFn ⟨Inp.intTok 2 :: Inp.numTok a :: Inp.numTok b :: rest, out, errs, false⟩ =
      ⟨rest, out ++ [Out.promptFirst, Out.promptSecond,
        Out.resultLine (format2 (a - b)), Out.promptChoice], errs, false⟩
    ∧ step powFn ⟨Inp.intTok 3 :: Inp.numTok a :: Inp.numTok b :: rest, out, errs, false⟩ =
      ⟨rest, out ++ [Out.promptFirst, Out.promptSecond,
        Out.resultLine (format2 (a * b)), Out.promptChoice], errs, false⟩ := by
  refine ⟨?_, ?_, ?_⟩ <;>
    simp [step, scanfInt, intOf, get_numbers, scanfNum, numOf, dispatchOp]

/-- If the loop has been exited, further iterations change nothing. -/
lemma run_done (powFn : ℚ → ℚ → DVal) (n : Nat) (s : CalcState) (h : s.done = true) :
    run powFn n s = s := by
  induction n with
  | zero => rfl
  | succ n ih => simp [run, ih, step, h]

/-- Claim C3: reading the Exit selection (7) from any loop state appends
exactly the farewell message, terminates the loop (`done` becomes `true`
and every later iteration is a no-op), consumes no operand tokens (only
the selection token is read), and the process exit code is 0. -/
theorem C3_exit (powFn : ℚ → ℚ → DVal) (rest : List Inp)
    (out : List Out) (errs : List Err) (n : Nat) :
    step powFn ⟨Inp.intTok 7 :: rest, out, errs, false⟩ =
      ⟨rest, out ++ [Out.goodbye], errs, true⟩
    ∧ run powFn n (step powFn ⟨Inp.intTok 7 :: rest, out, errs, false⟩) =
      ⟨rest, out ++ [Out.goodbye], errs, true⟩
    ∧ calcExitCode = 0 := by
  have h : step powFn ⟨Inp.intTok 7 :: rest, out, errs, false⟩ =
      ⟨rest, out ++ [Out.goodbye], errs, true⟩ := by
    simp [step, scanfInt, intOf]
  exact ⟨h, by rw [h]; exact run_done powFn n _ rfl, rfl⟩

/-- Claim C4: a selection token that `scanf("%d")` cannot parse makes the
iteration emit the invalid-input diagnostic, discard the offending line
(the token is consumed), redisplay the full menu followed by the prompt,
and the loop continues. -/
theorem C4_bad_selection (powFn : ℚ → ℚ → DVal) (t : Inp) (h : intOf t = none)
    (rest : List Inp) (out : List Out) (errs : List Err) :
    step powFn ⟨t :: rest, out, errs, false⟩ =
      ⟨rest, out ++ [Out.menu, Out.promptChoice],
        errs ++ [Err.invalidMenuInput], false⟩ := by
  simp [step, scanfInt, h]

/-- Witness for C4 at the concrete malformed token (e.g. "abc"). -/
theorem C4_bad_selection_witness :
    step pw0 ⟨[Inp.badTok], [], [], false⟩ =
      ⟨[], [Out.menu, Out.promptChoice], [Err.invalidMenuInput], false⟩ := by
  simpa using C4_bad_selection pw0 Inp.badTok rfl [] [] []

/-- Claim C5: an integer selection outside [1, 7] makes the iteration
emit the out-of-range diagnostic naming the bounds 1 and 7, discard the
rest of the line, re-prompt without redisplaying the menu, and the loop
continues. -/
theorem C5_range_selection (powFn : ℚ → ℚ → DVal) (n : ℤ) (h : n < 1 ∨ 7 < n)
    (rest : List Inp) (out : List Out) (errs : List Err) :
    step powFn ⟨Inp.intTok n :: rest, out, errs, false⟩ =
      ⟨rest, out ++ [Out.promptChoice],
        errs ++ [Err.invalidMenuRange 1 7], false⟩ := by
  have h7 : ¬ n = 7 := by omega
  simp [step, scanfInt, intOf, h7, h]

/-- Witness for C5 at the concrete out-of-range selection 9. -/
theorem C5_range_selection_witness :
    step pw0 ⟨[Inp.intTok 9], [], [], false⟩ =
      ⟨[], [Out.promptChoice], [Err.invalidMenuRange 1 7], false⟩ := by
  simpa using C5_range_selection pw0 9 (by omega) [] [] []

/-- Truncation toward zero is an odd function. -/
lemma qtrunc_neg (x : ℚ) : qtrunc (-x) = -qtrunc x := by
  rcases lt_trichotomy x 0 with h | h | h
  · have h1 : (0 : ℚ) ≤ -x := by linarith
    have h2 : ¬ (0 : ℚ) ≤ x := by linarith
    simp [qtrunc, h1, h2]
  · subst h
    simp [qtrunc]
  · have h1 : ¬ (0 : ℚ) ≤ -x := by linarith
    have h2 : (0 : ℚ) ≤ x := by linarith
    simp [qtrunc, h1, h2]

/-- The remainder `fmod` is odd in the dividend. -/
lemma qfmod_neg_dividend (a b : ℚ) : qfmod (-a) b = -qfmod a b := by
  unfold qfmod
  rw [neg_div, qtrunc_neg]
  push_cast
  ring

/-- The remainder `fmod` of a nonnegative dividend is nonnegative, whatever the sign of
the (nonzero) divisor. -/
lemma qfmod_nonneg (a b : ℚ) (ha : 0 ≤ a) (hb : b ≠ 0) : 0 ≤ qfmod a b := by
  unfold qfmod qtrunc
  rcases hb.lt_or_lt with hb' | hb'
  · rcases eq_or_lt_of_le ha with h0 | h0
    · simp [← h0]
    · have hq : a / b < 0 := div_neg_of_pos_of_neg h0 hb'
      rw [if_neg (not_le.mpr hq), ← div_neg]
      have hbpos : (0 : ℚ) < -b := by linarith
      have hfl : (⌊a / -b⌋ : ℚ) ≤ a / -b := Int.floor_le _
      have h2 : (-b) * (⌊a / -b⌋ : ℚ) ≤ (-b) * (a / -b) :=
        mul_le_mul_of_nonneg_left hfl hbpos.le
      have hba : (-b) * (a / -b) = a := by field_simp
      push_cast
      linarith
  · have hq : 0 ≤ a / b := div_nonneg ha hb'.le
    rw [if_pos hq]
    have hfl : (⌊a / b⌋ : ℚ) ≤ a / b := Int.floor_le _
    have h2 : b * (⌊a / b⌋ : ℚ) ≤ b * (a / b) :=
      mul_le_mul_of_nonneg_left hfl hb'.le
    have hba : b * (a / b) = a := by field_simp
    linarith

/-- The remainder `fmod` of a nonpositive dividend is nonpositive. -/
lemma qfmod_nonpos (a b : ℚ) (ha : a ≤ 0) (hb : b ≠ 0) : qfmod a b ≤ 0 := by
  have h := qfmod_nonneg (-a) b (by linarith) hb
  rw [qfmod_neg_dividend] at h
  linarith

/-- Claim C6: for any divisor `b ≠ 0`, `division` returns `a / b` and
`modulus` returns `fmod(a, b)` (which carries the sign of the dividend), both
with no stderr output; at the machine level the corresponding iterations
print the result line and emit no diagnostic. -/
theorem C6_div_mod_nonzero (powFn : ℚ → ℚ → DVal) (a b : ℚ) (hb : b ≠ 0)
    (rest : List Inp) (out : List Out) (errs : List Err) :
    division a b = (DVal.num (a / b), [])
    ∧ modulus a b = (DVal.num (qfmod a b), [])
    ∧ (0 ≤ a → 0 ≤ qfmod a b)
    ∧ (a ≤ 0 → qfmod a b ≤ 0)
    ∧ step powFn ⟨Inp.intTok 4 :: Inp.numTok a :: Inp.numTok b :: rest, out, errs, false⟩ =
        ⟨rest, out ++ [Out.promptFirst, Out.promptSecond,
          Out.resultLine (format2 (a / b)), Out.promptChoice], errs, false⟩
    ∧ step powFn ⟨Inp.intTok 5 :: Inp.numTok a :: Inp.numTok b :: rest, out, errs, false⟩ =
        ⟨rest, out ++ [Out.promptFirst, Out.promptSecond,
          Out.resultLine (format2 (qfmod a b)), Out.promptChoice], errs, false⟩ := by
  refine ⟨by simp [division, hb], by simp [modulus, hb],
    fun ha => qfmod_nonneg a b ha hb, fun ha => qfmod_nonpos a b ha hb, ?_, ?_⟩ <;>
    simp [step, scanfInt, intOf, get_numbers, scanfNum, numOf, dispatchOp,
      division, modulus, hb]

/-- Witness for C6 at `a = 7`, `b = 2`: the quotient is 7/2, the
remainder is 1 and it is nonnegative like the dividend. -/
theorem C6_div_mod_nonzero_witness :
    division 7 2 = (DVal.num (7 / 2), [])
    ∧ modulus 7 2 = (DVal.num 1, [])
    ∧ 0 ≤ qfmod 7 2 := by
  have h := C6_div_mod_nonzero pw0 7 2 (by norm_num) [] [] []
  refine ⟨h.1, ?_, h.2.2.1 (by norm_num)⟩
  rw [h.2.1]
  norm_num [qfmod, qtrunc]

/-- Claim C7: for any valid arithmetic selection `c ∈ [1, 6]`, operand
acquisition reads two numbers in sequence; if the first fails to parse,
the first-operand diagnostic is emitted, the line is discarded, the
second value is never prompted for or read, no computation happens and
control returns to the selection prompt; if the second fails to parse,
the second-operand diagnostic is emitted with the same recovery. -/
theorem C7_operand_failure (powFn : ℚ → ℚ → DVal) (c : ℤ)
    (hc1 : 1 ≤ c) (hc2 : c ≤ 6) (t t2 : Inp) (a : ℚ)
    (rest : List Inp) (out : List Out) (errs : List Err) :
    (numOf t = none →
      step powFn ⟨Inp.intTok c :: t :: rest, out, errs, false⟩ =
        ⟨rest, out ++ [Out.promptFirst, Out.promptChoice],
          errs ++ [Err.invalidFirstOperand], false⟩)
    ∧ (numOf t = some a → numOf t2 = none →
      step powFn ⟨Inp.intTok c :: t :: t2 :: rest, out, errs, false⟩ =
        ⟨rest, out ++ [Out.promptFirst, Out.promptSecond, Out.promptChoice],
          errs ++ [Err.invalidSecondOperand], false⟩) := by
  have h7 : ¬ c = 7 := by omega
  have hr : ¬ (c < 1 ∨ 7 < c) := by omega
  constructor
  · intro hnum
    simp [step, scanfInt, intOf, h7, hr, get_numbers, scanfNum, hnum]
  · intro hnum1 hnum2
    simp [step, scanfInt, intOf, h7, hr, get_numbers, scanfNum, hnum1, hnum2]

/-- Witness for C7: selection Add, first operand malformed; and
selection Add, first operand 5, second malformed. -/
theorem C7_operand_failure_witness :
    step pw0 ⟨[Inp.intTok 1, Inp.badTok], [], [], false⟩ =
      ⟨[], [Out.promptFirst, Out.promptChoice], [Err.invalidFirstOperand], false⟩
    ∧ step pw0 ⟨[Inp.intTok 1, Inp.numTok 5, Inp.badTok], [], [], false⟩ =
      ⟨[], [Out.promptFirst, Out.promptSecond, Out.promptChoice],
        [Err.invalidSecondOperand], false⟩ := by
  have h := C7_operand_failure pw0 1 (by norm_num) (by norm_num)
    Inp.badTok Inp.badTok 5 [] [] []
  have h2 := C7_operand_failure pw0 1 (by norm_num) (by norm_num)
    (Inp.numTok 5) Inp.badTok 5 [] [] []
  exact ⟨by simpa using h.1 rfl, by simpa using h2.2 rfl rfl⟩

/-- At end of input the iteration takes the parse-failure branch: `scanf`
returns `EOF`, the discard loop consumes nothing, the diagnostic is
emitted and the menu and prompt are reprinted. -/
lemma step_empty (powFn : ℚ → ℚ → DVal) (out : List Out) (errs : List Err) :
    step powFn ⟨[], out, errs, false⟩ =
      ⟨[], out ++ [Out.menu, Out.promptChoice],
        errs ++ [Err.invalidMenuInput], false⟩ := by
  simp [step, scanfInt]

/-- Any number of iterations from an exhausted input stream leaves the
input empty and the loop running. -/
lemma run_empty_shape (powFn : ℚ → ℚ → DVal) (out : List Out) (errs : List Err) :
    ∀ n : Nat, ∃ o e, run powFn n ⟨[], out, errs, false⟩ = ⟨[], o, e, false⟩ := by
  intro n
  induction n with
  | zero => exact ⟨out, errs, rfl⟩
  | succ n ih =>
    obtain ⟨o, e, ih⟩ := ih
    exact ⟨o ++ [Out.menu, Out.promptChoice], e ++ [Err.invalidMenuInput], by
      rw [run, ih, step_empty]⟩

/-- Claim C9: once the input stream is exhausted while awaiting a
selection, no number of further iterations terminates the loop: the input
stays empty, `done` stays `false`, and every iteration appends exactly
the invalid-input diagnostic and a fresh menu banner and prompt, forever. -/
theorem C9_eof_never_terminates (powFn : ℚ → ℚ → DVal) (out : List Out)
    (errs : List Err) (n : Nat) :
    (run powFn n ⟨[], out, errs, false⟩).done = false
    ∧ (run powFn n ⟨[], out, errs, false⟩).input = []
    ∧ (run powFn (n + 1) ⟨[], out, errs, false⟩).output =
        (run powFn n ⟨[], out, errs, false⟩).output ++ [Out.menu, Out.promptChoice]
    ∧ (run powFn (n + 1) ⟨[], out, errs, false⟩).errors =
        (run powFn n ⟨[], out, errs, false⟩).errors ++ [Err.invalidMenuInput] := by
  obtain ⟨o, e, h⟩ := run_empty_shape powFn out errs n
  have h1 : run powFn (n + 1) ⟨[], out, errs, false⟩ =
      ⟨[], o ++ [Out.menu, Out.promptChoice], e ++ [Err.invalidMenuInput], false⟩ := by
    rw [run, h, step_empty]
  rw [h, h1]
  exact ⟨rfl, rfl, rfl, rfl⟩

/-- Operand acquisition never writes the unhandled-choice diagnostic. -/
lemma get_numbers_no_unhandled (inp : List Inp) :
    Err.unhandledChoice ∉ (get_numbers inp).2.2.2 := by
  unfold get_numbers
  rcases h1 : scanfNum inp with ⟨_ | a, r⟩
  · simp [h1]
  · rcases h2 : scanfNum r with ⟨_ | b, r2⟩ <;> simp [h1, h2]

/-- A dispatch on a selection that passed the Exit check and the range
validation (`1 ≤ c ≤ 7`, `c ≠ 7`) never takes the default branch, so it
never writes the unhandled-choice diagnostic. -/
lemma dispatchOp_no_unhandled (powFn : ℚ → ℚ → DVal) (c : ℤ) (a b : ℚ)
    (h1 : 1 ≤ c) (h2 : c ≤ 7) (h7 : c ≠ 7) :
    Err.unhandledChoice ∉ (dispatchOp powFn c a b).2 := by
  have h6 : c ≤ 6 := by omega
  interval_cases c <;>
    simp [dispatchOp, division, modulus] <;>
    split <;> simp

/-- One iteration never adds the unhandled-choice diagnostic. -/
lemma step_no_unhandled (powFn : ℚ → ℚ → DVal) (s : CalcState)
    (h : Err.unhandledChoice ∉ s.errors) :
    Err.unhandledChoice ∉ (step powFn s).errors := by
  unfold step
  split
  · exact h
  rcases hscan : scanfInt s.input with ⟨_ | c, rest⟩
  · simpa using h
  simp only []
  split
  · exact h
  rename_i hc7
  split
  · simpa using h
  rename_i hcr
  rcases hgn : get_numbers rest with ⟨_ | ⟨a, b⟩, rest2, outs, errs2⟩
  · have := get_numbers_no_unhandled rest
    rw [hgn] at this
    simp_all
  · have herrs : Err.unhandledChoice ∉ errs2 := by
      have := get_numbers_no_unhandled rest
      rw [hgn] at this
      simpa using this
    have hop : Err.unhandledChoice ∉ (dispatchOp powFn c a b).2 :=
      dispatchOp_no_unhandled powFn c a b (by omega) (by omega) hc7
    rcases hdp : dispatchOp powFn c a b with ⟨_ | q, operrs⟩ <;>
    · rw [hdp] at hop
      simp_all

/-- Claim C10: the default branch of the operation-dispatch switch is
unreachable — in every execution of the calculator from its initial state,
on any input and for any number of iterations, the `Unhandled menu choice`
diagnostic is never emitted. -/
theorem C10_default_unreachable (powFn : ℚ → ℚ → DVal) (inp : List Inp) (n : Nat) :
    Err.unhandledChoice ∉ (run powFn n (initState inp)).errors := by
  induction n with
  | zero => simp [run, initState]
  | succ n ih => exact step_no_unhandled powFn _ ih

end Calc

namespace Game

/-- One stdout event per `printf` site inside the guessing loop of
`gameguess.c`: the guess prompt, the two feedback lines, and the success
message carrying the attempt count printed with `%d`. -/
inductive GOut where
  | promptGuess
  | larger
  | smaller
  | correct (attempts : Nat)
deriving DecidableEq

/-- The expression `rand() % 100 + 1` (`gameguess.c` line 13): the secret number derived
from the nonnegative value returned by `rand()`. -/
def genSecret (r : Nat) : ℤ := (r : ℤ) % 100 + 1

/-- The `do { ... } while (guess != random)` loop of `gameguess.c` lines
16-30, as a function of the secret, the attempt count so far
(`no_of_guess`) and the remaining stream of read guesses: each pass
prompts, reads a guess, increments the count, then prints `larger` when
the guess is below the secret, `smaller` when above, and the success
message with the count when equal — in which case the loop exits and no
further guess is read.  (An exhausted guess stream is left unspecified by
the C, whose `scanf` result is unchecked; the model simply stops there.) -/
def gameLoop (secret : ℤ) (count : Nat) : List ℤ → List GOut
  | [] => []
  | g :: gs =>
    if g < secret then GOut.promptGuess :: GOut.larger :: gameLoop secret (count + 1) gs
    else if secret < g then GOut.promptGuess :: GOut.smaller :: gameLoop secret (count + 1) gs
    else [GOut.promptGuess, GOut.correct (count + 1)]

/-- As long as no guess equals the secret, the loop never prints the
success message (and hence never exits). -/
lemma gameLoop_no_correct (secret : ℤ) (k : Nat) (gs : List ℤ) :
    ∀ c : Nat, secret ∉ gs → GOut.correct k ∉ gameLoop secret c gs := by
  induction gs with
  | nil =>
    intro c _
    simp [gameLoop]
  | cons g gs ih =>
    intro c h
    rw [List.mem_cons] at h
    push_neg at h
    rcases lt_trichotomy g secret with hlt | heq | hgt
    · simp only [gameLoop, if_pos hlt, List.mem_cons]
      push_neg
      exact ⟨by simp, by simp, ih (c + 1) h.2⟩
    · exact absurd heq.symm h.1
    · simp only [gameLoop, if_neg (not_lt.mpr hgt.le), if_pos hgt, List.mem_cons]
      push_neg
      exact ⟨by simp, by simp, ih (c + 1) h.2⟩

/-- Claim C8: the generated secret `rand() % 100 + 1` always lies in
[1, 100]; each loop pass prints `larger` feedback below the secret,
`smaller` feedback above it, and the success message carrying the attempt
count on a match, after which the loop stops reading; and for a guess
stream never matching the secret the success message is never printed, so
the loop terminates only when a guess matches. -/
theorem C8_guessing_game (r : Nat) (secret g : ℤ) (c k : Nat)
    (gs hs : List ℤ) (hns : secret ∉ hs) :
    (1 ≤ genSecret r ∧ genSecret r ≤ 100)
    ∧ (g < secret → gameLoop secret c (g :: gs) =
        GOut.promptGuess :: GOut.larger :: gameLoop secret (c + 1) gs)
    ∧ (secret < g → gameLoop secret c (g :: gs) =
        GOut.promptGuess :: GOut.smaller :: gameLoop secret (c + 1) gs)
    ∧ (g = secret → gameLoop secret c (g :: gs) =
        [GOut.promptGuess, GOut.correct (c + 1)])
    ∧ GOut.correct k ∉ gameLoop secret c hs := by
  refine ⟨⟨?_, ?_⟩, ?_, ?_, ?_, gameLoop_no_correct secret k hs c hns⟩
  · unfold genSecret
    omega
  · unfold genSecret
    omega
  · intro hlt
    simp [gameLoop, hlt]
  · intro hgt
    simp [gameLoop, not_lt.mpr hgt.le, hgt]
  · intro heq
    simp [gameLoop, heq]

/-- Witness for C8: secret 5, guesses 3 (low), 7 (high), 5 (match on the
third attempt); and a non-matching stream on which success never fires. -/
theorem C8_guessing_game_witness :
    (1 ≤ genSecret 12345 ∧ genSecret 12345 ≤ 100)
    ∧ gameLoop 5 0 [3, 7, 5] = [GOut.promptGuess, GOut.larger, GOut.promptGuess,
        GOut.smaller, GOut.promptGuess, GOut.correct 3]
    ∧ GOut.correct 1 ∉ gameLoop 5 0 [4, 6] := by
  have h := C8_guessing_game 12345 5 3 0 1 [7, 5] [4, 6] (by decide)
  refine ⟨h.1, ?_, h.2.2.2.2⟩
  rw [h.2.1 (by decide)]
  decide

end Game
